import Mathlib

/-
Verification development for the medical-document ingestion pipeline
(src/agents/rag_agent/data_ingestion.py, class MedicalDataIngestion).

Modelling conventions for the shallow embedding:
  * Python dicts with string keys are association lists with dict-update
    semantics (`dinsert` replaces the value at an existing key in place,
    otherwise appends at the end, exactly like `d[k] = v`).
  * The mutable `self.stats` dict is threaded explicitly: each method takes
    the current `Stats` and returns the updated one.
  * A source file is a name together with its parsed payload; the payload
    constructor encodes the (lower-cased) extension dispatch of
    `ingest_file`, and an `Except.error` payload models the extractor's
    internal `try/except` catching a parse/read failure (`str(e)` becomes
    the carried message).
  * pandas DataFrames are a column-name list plus rows of cells.  A column
    has dtype `object` iff it contains at least one string cell; `astype(str)`
    of a missing value is the three-character string "nan", as in pandas.
    Because every column of a DataFrame has the same number of rows,
    comparing mean string lengths is equivalent to comparing total string
    lengths, so the embedding compares exact totals (pandas compares the
    float means; with equal denominators the order and ties agree).
  * JSON numbers are embedded as integers; no claim in scope depends on
    float-valued payloads.
  * PyPDF2's reader is abstracted to the list of per-page `extract_text()`
    results plus the optional document-info mapping (`reader.metadata`);
    only its string-valued entries matter to the code under test.
-/

/-- Scalar metadata values: the Python values `str`, `int`, `bool` that the
extractors store into a document's metadata dict. -/
inductive MetaValue where
  | str (s : String)
  | int (n : Int)
  | bool (b : Bool)
  deriving DecidableEq, Repr

/-- A Python dict with string keys and scalar values, in insertion order. -/
abbrev PyDict := List (String × MetaValue)

/-- Python dict assignment `m[k] = v`: replace in place if the key exists,
otherwise append at the end. -/
def dinsert (k : String) (v : MetaValue) : PyDict → PyDict
  | [] => [(k, v)]
  | (k', v') :: rest => if k' = k then (k', v) :: rest else (k', v') :: dinsert k v rest

/-- Dict lookup (first occurrence). -/
def alookup (k : String) : PyDict → Option MetaValue
  | [] => none
  | (k', v) :: rest => if k' = k then some v else alookup k rest

/-- The key sequence of a dict. -/
def keys (m : PyDict) : List String := m.map Prod.fst

/-- A normalized document: content string plus flat metadata dict
(the shape produced by every extractor). -/
structure Document where
  content : String
  metadata : PyDict
  deriving DecidableEq, Repr

/-- The result dict of a single-file ingestion: `{"success": True, "document": d}`,
`{"success": True, "documents": ds}`, or `{"success": False, "error": msg}`. -/
inductive IngestionResult where
  | doc (d : Document)
  | docs (ds : List Document)
  | err (msg : String)
  deriving DecidableEq, Repr

/-- The documents carried by a result. -/
def docsOf : IngestionResult → List Document
  | IngestionResult.doc d => [d]
  | IngestionResult.docs ds => ds
  | IngestionResult.err _ => []

/-- How many documents a result contributes to `documents_ingested`. -/
def docCount : IngestionResult → Nat
  | IngestionResult.doc _ => 1
  | IngestionResult.docs ds => ds.length
  | IngestionResult.err _ => 0

/-- Metadata of the first document of a result (projection used to state
closed facts about concrete runs). -/
def firstDocMeta (r : IngestionResult) : PyDict :=
  match r with
  | IngestionResult.doc d => d.metadata
  | IngestionResult.docs ds => (ds.headD ⟨"", []⟩).metadata
  | IngestionResult.err _ => []

/-- Content of the first document of a result. -/
def firstDocContent (r : IngestionResult) : String :=
  match r with
  | IngestionResult.doc d => d.content
  | IngestionResult.docs ds => (ds.headD ⟨"", []⟩).content
  | IngestionResult.err _ => ""

/-- The `self.stats` dict of `MedicalDataIngestion`. -/
structure Stats where
  files_processed : Nat
  documents_ingested : Nat
  errors : Nat
  deriving DecidableEq, Repr

/-- Stats as initialized in `__init__`. -/
def initStats : Stats := ⟨0, 0, 0⟩

/-- Python `max(items, key=f)` is a left fold keeping the current maximum and
replacing it only on a strictly greater key, so the first maximal element
wins ties. -/
def pickMax (f : α → Nat) (b : α) (l : List α) : α :=
  l.foldl (fun best y => if f y > f best then y else best) b

/-- `max` over a possibly empty list of candidates (none when empty). -/
def maxByFirst (f : α → Nat) : List α → Option α
  | [] => none
  | x :: xs => some (pickMax f x xs)

/-- Specification-style first-maximum: pick the best of the tail and let an
earlier element win unless strictly beaten.  Used to reason about `pickMax`. -/
def specFirstMax (f : α → Nat) : List α → Option α
  | [] => none
  | x :: xs =>
    match specFirstMax f xs with
    | none => some x
    | some m => some (if f m > f x then m else x)

/-- A DataFrame cell: a string, an integer, or a missing value (NaN). -/
inductive Cell where
  | str (s : String)
  | num (n : Int)
  | null
  deriving DecidableEq, Repr

/-- A pandas DataFrame: ordered column names and rows of cells
(each row positionally aligned with `cols`). -/
structure DataFrame where
  cols : List String
  rows : List (List Cell)
  deriving DecidableEq, Repr

/-- Position of a column name in the schema. -/
def colIdx (cols : List String) (c : String) : Nat :=
  match cols with
  | [] => 0
  | c' :: rest => if c' = c then 0 else colIdx rest c + 1

/-- `row[col]`: the cell of `row` at column `c`. -/
def getCell (cols : List String) (row : List Cell) (c : String) : Cell :=
  row.getD (colIdx cols c) Cell.null

/-- `pd.isna(row[col])`. -/
def isNullCell : Cell → Bool
  | Cell.null => true
  | _ => false

/-- `str(value)` for a cell; pandas renders a missing value as "nan". -/
def cellToStr : Cell → String
  | Cell.str s => s
  | Cell.num n => toString n
  | Cell.null => "nan"

/-- Column dtype test `df[col].dtype == 'object'`: the column holds strings. -/
def isTextLike (df : DataFrame) (c : String) : Bool :=
  df.rows.any (fun row =>
    match getCell df.cols row c with
    | Cell.str _ => true
    | _ => false)

/-- Total string length of a column under `astype(str)`; with the common row
count this orders columns exactly like the mean used in the source. -/
def colTotalLen (df : DataFrame) (c : String) : Nat :=
  (df.rows.map (fun row => (cellToStr (getCell df.cols row c)).length)).sum

/-- The keys of the `avg_lengths` dict, in column order: the object-dtype
columns. -/
def textLikeCols (df : DataFrame) : List String :=
  df.cols.filter (fun c => isTextLike df c)

/-- The fixed priority list `content_column_names` of
`_identify_content_column`. -/
def contentColumnNames : List String :=
  ["content", "text", "description", "abstract", "body"]

/-- Embedding of `_identify_content_column`: first priority name that is a
column; otherwise the object-dtype column of greatest average string length
(first wins ties); otherwise the first column. -/
def identifyContentColumn (df : DataFrame) : String :=
  match contentColumnNames.find? (fun n => decide (n ∈ df.cols)) with
  | some n => n
  | none =>
    match maxByFirst (colTotalLen df) (textLikeCols df) with
    | some c => c
    | none => df.cols.headD ""

/-- One step of the metadata loop of `_ingest_csv_file`:
`if col != text_column and not pd.isna(row[col]): metadata[col] = str(row[col])`. -/
def csvMetaStep (cols : List String) (row : List Cell) (tc : String)
    (m : PyDict) (col : String) : PyDict :=
  if col ≠ tc ∧ isNullCell (getCell cols row col) = false then
    dinsert col (MetaValue.str (cellToStr (getCell cols row col))) m
  else m

/-- The document `_ingest_csv_file` builds for one row. -/
def csvRowDoc (name : String) (df : DataFrame) (tc : String) (row : List Cell) :
    Document :=
  ⟨cellToStr (getCell df.cols row tc),
   df.cols.foldl (csvMetaStep df.cols row tc)
     [("source", MetaValue.str name), ("file_type", MetaValue.str "csv")]⟩

/-- Embedding of `_ingest_csv_file`: on a parse failure the caught exception
becomes an error result; otherwise one document per row and
`documents_ingested += len(documents)`. -/
def ingestCsvFile (name : String) (r : Except String DataFrame) (s : Stats) :
    IngestionResult × Stats :=
  match r with
  | Except.error e => (IngestionResult.err e, s)
  | Except.ok df =>
    let tc := identifyContentColumn df
    let docs := df.rows.map (csvRowDoc name df tc)
    (IngestionResult.docs docs,
     { s with documents_ingested := s.documents_ingested + docs.length })

/-- JSON values; numbers are embedded as integers (no claim in scope
involves float payloads). -/
inductive Json where
  | str (s : String)
  | int (n : Int)
  | bool (b : Bool)
  | null
  | arr (items : List Json)
  | obj (fields : List (String × Json))

/-- Dict lookup in a JSON object (first occurrence). -/
def alookupJ (k : String) : List (String × Json) → Option Json
  | [] => none
  | (k', v) :: rest => if k' = k then some v else alookupJ k rest

/-- Extract the string of a JSON value; returns "" for non-strings
(unreachable at the call sites, where the locator guarantees a string). -/
def jsonStrD : Option Json → String
  | some (Json.str s) => s
  | _ => ""

/-- `isinstance(value, (str, int, float, bool))` and the identity coercion
used by the JSON metadata loops. -/
def scalarMeta : Json → Option MetaValue
  | Json.str s => some (MetaValue.str s)
  | Json.int n => some (MetaValue.int n)
  | Json.bool b => some (MetaValue.bool b)
  | _ => none

/-- The fixed priority list `content_field_names` of
`_identify_json_content_field`. -/
def contentFieldNames : List String :=
  ["content", "text", "description", "abstract", "body"]

/-- `name in item and isinstance(item[name], str)`. -/
def isStrField (item : List (String × Json)) (n : String) : Bool :=
  match alookupJ n item with
  | some (Json.str _) => true
  | _ => false

/-- The `text_fields` dict of `_identify_json_content_field`: string-valued
fields of length greater than 50, mapped to their length, in field order. -/
def textFields50 (item : List (String × Json)) : List (String × Nat) :=
  item.filterMap (fun kv =>
    match kv.2 with
    | Json.str s => if s.length > 50 then some (kv.1, s.length) else none
    | _ => none)

/-- Embedding of `_identify_json_content_field`: first priority name bound to
a string; otherwise the longest string field over 50 characters (first wins
ties); otherwise `None`. -/
def identifyJsonContentField (item : List (String × Json)) : Option String :=
  match contentFieldNames.find? (fun n => isStrField item n) with
  | some n => some n
  | none => (maxByFirst (fun q => q.2) (textFields50 item)).map (fun q => q.1)

/-- One step of a JSON metadata loop:
`if key != content_field and isinstance(value, (str, int, float, bool))`. -/
def jsonMetaStep (cf : String) (m : PyDict) (kv : String × Json) : PyDict :=
  if kv.1 ≠ cf then
    match scalarMeta kv.2 with
    | some mv => dinsert kv.1 mv m
    | none => m
  else m

/-- The metadata fold shared by the list branch and the nested-object branch
of `_ingest_json_file`. -/
def jsonMetaFold (cf : String) (base : PyDict) (fields : List (String × Json)) :
    PyDict :=
  fields.foldl (jsonMetaStep cf) base

/-- Documents contributed by one element of a top-level JSON list.  The
Python guard `if content_field:` is falsy both for `None` and for the empty
string, hence the extra emptiness test. -/
def jsonListItemDocs (src : String) (item : Json) : List Document :=
  match item with
  | Json.obj fields =>
    match identifyJsonContentField fields with
    | some cf =>
      if cf = "" then []
      else
        [⟨jsonStrD (alookupJ cf fields),
          jsonMetaFold cf
            [("source", MetaValue.str src), ("file_type", MetaValue.str "json")]
            fields⟩]
    | none => []
  | _ => []

/-- Documents contributed by the top-level-dict branch of `_ingest_json_file`:
long string values become key-tagged documents, dict values become nested
records (again under the truthiness guard `if content_field:`). -/
def jsonDictDocs (src : String) (fields : List (String × Json)) : List Document :=
  fields.filterMap (fun kv =>
    match kv.2 with
    | Json.str s =>
      if s.length > 100 then
        some ⟨s, [("source", MetaValue.str src), ("file_type", MetaValue.str "json"),
                  ("key", MetaValue.str kv.1)]⟩
      else none
    | Json.obj sub =>
      match identifyJsonContentField sub with
      | some cf =>
        if cf = "" then none
        else
          some ⟨jsonStrD (alookupJ cf sub),
                jsonMetaFold cf
                  [("source", MetaValue.str src), ("file_type", MetaValue.str "json"),
                   ("document_id", MetaValue.str kv.1)]
                  sub⟩
      | none => none
    | _ => none)

/-- All documents `_ingest_json_file` derives from a parsed payload (a
payload that is neither a list nor a dict yields none). -/
def jsonDocs (src : String) (data : Json) : List Document :=
  match data with
  | Json.arr items => items.flatMap (jsonListItemDocs src)
  | Json.obj fields => jsonDictDocs src fields
  | _ => []

/-- Embedding of `_ingest_json_file`: parse failures become error results;
an empty document list is the failure "No valid documents found"; otherwise
success and `documents_ingested += len(documents)`. -/
def ingestJsonFile (src : String) (r : Except String Json) (s : Stats) :
    IngestionResult × Stats :=
  match r with
  | Except.error e => (IngestionResult.err e, s)
  | Except.ok data =>
    let docs := jsonDocs src data
    if docs.isEmpty then (IngestionResult.err "No valid documents found", s)
    else (IngestionResult.docs docs,
          { s with documents_ingested := s.documents_ingested + docs.length })

/-- Embedding of `_ingest_text_file`: the whole payload as one document with
metadata `{source, file_type: "txt"}`; a read/decode failure is caught into
an error result. -/
def ingestTextFile (name : String) (r : Except String String) (s : Stats) :
    IngestionResult × Stats :=
  match r with
  | Except.error e => (IngestionResult.err e, s)
  | Except.ok content =>
    (IngestionResult.doc
       ⟨content, [("source", MetaValue.str name), ("file_type", MetaValue.str "txt")]⟩,
     { s with documents_ingested := s.documents_ingested + 1 })

/-- A value of the PDF document-info mapping: a string, or anything else
(skipped by the `isinstance(value, str)` guard). -/
inductive PdfMetaValue where
  | str (s : String)
  | other
  deriving DecidableEq, Repr

/-- A readable PDF as seen through PyPDF2: per-page `extract_text()` results
and the optional `reader.metadata` mapping. -/
structure PdfDoc where
  pages : List String
  info : Option (List (String × PdfMetaValue))
  deriving DecidableEq, Repr

/-- The entries of `reader.metadata` (none when it is `None`). -/
def pdfEntries (pdf : PdfDoc) : List (String × PdfMetaValue) := pdf.info.getD []

/-- ASCII lower-casing, character by character: the effect of Python's
`.lower()` on the ASCII keys of a PDF info dictionary. -/
def lowerStr (s : String) : String := String.mk (s.data.map Char.toLower)

/-- `key[1:] if key.startswith("/") else key`. -/
def cleanKey (k : String) : String :=
  match k.data with
  | '/' :: rest => String.mk rest
  | _ => k

/-- The metadata key a document-info entry writes, if any: the guard is
`if key and value and isinstance(value, str)`, the key is
`clean_key.lower()`. -/
def pdfCopyKey (kv : String × PdfMetaValue) : Option String :=
  match kv.2 with
  | PdfMetaValue.str sv =>
    if kv.1 ≠ "" ∧ sv ≠ "" then some (lowerStr (cleanKey kv.1)) else none
  | PdfMetaValue.other => none

/-- One step of the document-info loop of `_ingest_pdf_file`. -/
def pdfMetaStep (m : PyDict) (kv : String × PdfMetaValue) : PyDict :=
  match kv.2 with
  | PdfMetaValue.str sv =>
    if kv.1 ≠ "" ∧ sv ≠ "" then
      dinsert (lowerStr (cleanKey kv.1)) (MetaValue.str sv) m
    else m
  | PdfMetaValue.other => m

/-- The chunk `f"--- Page {page_num + 1} ---\n{page_text}\n\n"` appended for a
non-empty page (`n` is the zero-based page index). -/
def pageChunk (n : Nat) (text : String) : String :=
  "--- Page " ++ toString (n + 1) ++ " ---\n" ++ text ++ "\n\n"

/-- The page-accumulation loop of `_ingest_pdf_file`: empty page texts are
skipped by the `if page_text:` truthiness guard. -/
def pdfContentAux (n : Nat) (pages : List String) : String :=
  match pages with
  | [] => ""
  | p :: rest => (if p = "" then "" else pageChunk n p) ++ pdfContentAux (n + 1) rest

/-- Concatenation of a list of strings. -/
def concatAll : List String → String
  | [] => ""
  | s :: rest => s ++ concatAll rest

/-- Specification-style view of the combined PDF content: the chunks of the
non-empty pages, in page order, with one-based page numbers. -/
def pageChunksSpec (pages : List String) : List String :=
  ((pages.enum).filter (fun q => q.2 ≠ "")).map (fun q => pageChunk q.1 q.2)

/-- Embedding of `_ingest_pdf_file`: page texts concatenated with markers,
metadata `{source, file_type: "pdf", num_pages}` then the string-valued
document-info properties (cleaned, lower-cased keys) written over it;
always one document on success. -/
def ingestPdfFile (name : String) (r : Except String PdfDoc) (s : Stats) :
    IngestionResult × Stats :=
  match r with
  | Except.error e => (IngestionResult.err e, s)
  | Except.ok pdf =>
    let content := pdfContentAux 0 pdf.pages
    let base : PyDict :=
      [("source", MetaValue.str name), ("file_type", MetaValue.str "pdf"),
       ("num_pages", MetaValue.int (pdf.pages.length : Int))]
    let md :=
      match pdf.info with
      | some entries => if entries.isEmpty then base else entries.foldl pdfMetaStep base
      | none => base
    (IngestionResult.doc ⟨content, md⟩,
     { s with documents_ingested := s.documents_ingested + 1 })

/-- A file's parsed payload; the constructor encodes the lower-cased
extension on which `ingest_file` dispatches, and `unsupported` covers every
other suffix. -/
inductive FileContent where
  | txt (r : Except String String)
  | csv (r : Except String DataFrame)
  | json (r : Except String Json)
  | pdf (r : Except String PdfDoc)
  | unsupported

/-- A file on disk: its name and its payload. -/
structure File where
  name : String
  content : FileContent

/-- Embedding of `ingest_file` on an existing file: dispatch by extension;
an unrecognized suffix returns `{"success": False, "error": "Unsupported
file format"}` (it does not raise). -/
def ingestFile (f : File) (s : Stats) : IngestionResult × Stats :=
  match f.content with
  | FileContent.txt r => ingestTextFile f.name r s
  | FileContent.csv r => ingestCsvFile f.name r s
  | FileContent.json r => ingestJsonFile f.name r s
  | FileContent.pdf r => ingestPdfFile f.name r s
  | FileContent.unsupported => (IngestionResult.err "Unsupported file format", s)

/-- Embedding of `ingest_file` including its existence check: a missing file
raises `FileNotFoundError` before any extractor runs, modelled as an
`Except.error`. -/
def ingestFileChecked (f : Option File) (s : Stats) :
    Except String (IngestionResult × Stats) :=
  match f with
  | none => Except.error "File not found"
  | some file => Except.ok (ingestFile file s)

/-- The per-file loop of `ingest_directory`: a completed `ingest_file` call
(raising or not raising, successful result or not) increments
`files_processed`; only a raised exception increments `errors`. -/
def ingestDirectoryLoop (files : List File) (s : Stats) : Stats :=
  files.foldl
    (fun st f =>
      match ingestFileChecked (some f) st with
      | Except.ok (_, st') => { st' with files_processed := st'.files_processed + 1 }
      | Except.error _ => { st with errors := st.errors + 1 })
    s

/-- The body of the outer `try` of `ingest_directory`: a missing or
non-directory path raises `ValueError` before any file is processed. -/
def ingestDirectoryBody (dir : Option (List File)) (s : Stats) :
    Except String Stats :=
  match dir with
  | none => Except.error "Directory does not exist"
  | some files => Except.ok (ingestDirectoryLoop files s)

/-- Embedding of `ingest_directory`: the outer `except Exception` catches the
`ValueError` itself and returns `self.stats` unchanged, so the caller never
observes an error. -/
def ingestDirectory (dir : Option (List File)) (s : Stats) : Stats :=
  match ingestDirectoryBody dir s with
  | Except.ok st => st
  | Except.error _ => s

/-- Document count a file contributes, independent of the accumulator. -/
def fileDocCount (f : File) : Nat := docCount (ingestFile f initStats).1

/-- Concrete batch for the C1 scenario: one unsupported-format file and one
valid text file. -/
def dirC1 : List File :=
  [⟨"a.xyz", FileContent.unsupported⟩,
   ⟨"b.txt", FileContent.txt (Except.ok "hello")⟩]

/-- Concrete CSV with a column named like the reserved key `source`
(and a priority-named content column). -/
def dfC3 : DataFrame :=
  ⟨["text", "source"], [[Cell.str "hello", Cell.str "row-src"]]⟩

/-- Concrete CSV whose only column is named `source`, so the length heuristic
resolves `source` itself as the content column. -/
def dfC4x : DataFrame := ⟨["source"], [[Cell.str "abcdef"]]⟩

/-- Concrete CSV without reserved-name collisions for the C4 witness. -/
def dfC4w : DataFrame :=
  ⟨["id", "note"],
   [[Cell.num 1, Cell.str "hello"], [Cell.num 2, Cell.null]]⟩

/-- A 60-character string (longer than the 50-character heuristic bound). -/
def longS60 : String :=
  "abcdefghijabcdefghijabcdefghijabcdefghijabcdefghijabcdefghij"

/-- A 120-character string (longer than the 100-character heuristic bound). -/
def longS120 : String :=
  String.append longS60 longS60

/-- Concrete top-level JSON dict whose nested object's only long string field
is named by the empty string. -/
def fieldsC5x : List (String × Json) :=
  [("meta", Json.obj [("", Json.str longS60)])]

/-- The spec's structured-record single-mapping example. -/
def fieldsC5w : List (String × Json) :=
  [("intro", Json.str longS120),
   ("meta", Json.obj [("content", Json.str "hello world"), ("tag", Json.str "x")])]

/-- The spec's field-variant locator example `{"id": 1, "note": "short"}`. -/
def itemC6 : List (String × Json) :=
  [("id", Json.int 1), ("note", Json.str "short")]

/-- The spec's column-variant example schema. -/
def dfC7w : DataFrame :=
  ⟨["id", "title", "description"],
   [[Cell.num 1, Cell.str "t", Cell.str "a long description value"]]⟩

/-- Concrete PDF whose document info carries a string property
`/num_pages`, colliding with the reserved key. -/
def pdfC8x : PdfDoc :=
  ⟨["x", "y", "z"], some [("/num_pages", PdfMetaValue.str "oops")]⟩

/-- Concrete 3-page PDF whose middle page has no extractable text. -/
def pdfC8w : PdfDoc := ⟨["p1", "", "p3"], none⟩

/-- Looking up the key just written returns the new value. -/
theorem alookup_dinsert_self (k : String) (v : MetaValue) (m : PyDict) :
    alookup k (dinsert k v m) = some v := by
  induction m with
  | nil => simp [dinsert, alookup]
  | cons kv rest ih =>
    obtain ⟨k', v'⟩ := kv
    by_cases h : k' = k
    · simp [dinsert, alookup, h]
    · simp [dinsert, alookup, h, ih]

/-- Writing one key leaves lookups of other keys unchanged. -/
theorem alookup_dinsert_ne (k k' : String) (v : MetaValue) (m : PyDict)
    (h : k' ≠ k) : alookup k' (dinsert k v m) = alookup k' m := by
  induction m with
  | nil =>
    have hne : ¬ k = k' := fun hh => h hh.symm
    simp [dinsert, alookup, hne]
  | cons kv rest ih =>
    obtain ⟨k0, v0⟩ := kv
    by_cases h0 : k0 = k
    · subst h0
      have hne : ¬ k0 = k' := fun hh => h hh.symm
      simp [dinsert, alookup, hne]
    · simp only [dinsert, alookup, if_neg h0]
      by_cases h1 : k0 = k'
      · simp [h1]
      · simp [h1, ih]

/-- Dict assignment preserves the key sequence when the key is present and
appends it otherwise. -/
theorem keys_dinsert (k : String) (v : MetaValue) (m : PyDict) :
    keys (dinsert k v m) = if k ∈ keys m then keys m else keys m ++ [k] := by
  induction m with
  | nil => simp [dinsert, keys]
  | cons kv rest ih =>
    obtain ⟨k0, v0⟩ := kv
    by_cases h0 : k0 = k
    · subst h0
      simp [dinsert, keys]
    · have hne : ¬ k = k0 := fun hh => h0 hh.symm
      have hstep : keys (dinsert k v ((k0, v0) :: rest)) = k0 :: keys (dinsert k v rest) := by
        simp [dinsert, keys, h0]
      rw [hstep, ih]
      simp only [keys, List.map_cons, List.mem_cons]
      by_cases hmem : k ∈ List.map Prod.fst rest
      · simp [hmem, hne]
      · simp [hmem, hne]

/-- Dict assignment preserves distinctness of keys. -/
theorem nodup_keys_dinsert (k : String) (v : MetaValue) (m : PyDict)
    (h : (keys m).Nodup) : (keys (dinsert k v m)).Nodup := by
  rw [keys_dinsert]
  by_cases hmem : k ∈ keys m
  · simpa [hmem] using h
  · simp [hmem, List.nodup_append, h]

/-- A fold whose steps never touch key `k` leaves its lookup unchanged. -/
theorem alookup_foldl_congr {α : Type} {step : PyDict → α → PyDict} {k : String}
    (l : List α) (h : ∀ x ∈ l, ∀ m, alookup k (step m x) = alookup k m)
    (m : PyDict) : alookup k (List.foldl step m l) = alookup k m := by
  induction l generalizing m with
  | nil => rfl
  | cons x xs ih =>
    rw [List.foldl_cons, ih (fun y hy m2 => h y (List.mem_cons_of_mem x hy) m2),
        h x (List.mem_cons_self x xs)]

/-- A fold that sets key `k` at one position, with all later steps leaving it
alone, ends with that value at `k`. -/
theorem alookup_foldl_set {α : Type} {step : PyDict → α → PyDict} {k : String}
    {v : MetaValue} (l1 l2 : List α) (x : α)
    (hx : ∀ m, alookup k (step m x) = some v)
    (h2 : ∀ y ∈ l2, ∀ m, alookup k (step m y) = alookup k m) (m : PyDict) :
    alookup k (List.foldl step m (l1 ++ x :: l2)) = some v := by
  rw [List.foldl_append, List.foldl_cons, alookup_foldl_congr l2 h2, hx]

/-- Folding steps that each preserve key distinctness preserves it. -/
theorem nodup_keys_foldl {α : Type} {step : PyDict → α → PyDict}
    (h : ∀ m x, (keys m).Nodup → (keys (step m x)).Nodup) (l : List α)
    (m : PyDict) (hm : (keys m).Nodup) :
    (keys (List.foldl step m l)).Nodup := by
  induction l generalizing m with
  | nil => exact hm
  | cons x xs ih => exact ih (step m x) (h m x hm)

/-- Keys present after a fold were present before or were written by a step. -/
theorem alookup_foldl_isSome {α : Type} {step : PyDict → α → PyDict} {k : String}
    (key : α → String)
    (h : ∀ m x, (alookup k (step m x)).isSome = true →
       (alookup k m).isSome = true ∨ k = key x)
    (l : List α) (m : PyDict)
    (hl : (alookup k (List.foldl step m l)).isSome = true) :
    (alookup k m).isSome = true ∨ ∃ x ∈ l, k = key x := by
  induction l generalizing m with
  | nil => exact Or.inl hl
  | cons x xs ih =>
    rw [List.foldl_cons] at hl
    rcases ih (step m x) hl with h1 | ⟨y, hy, hky⟩
    · rcases h m x h1 with h2 | h2
      · exact Or.inl h2
      · exact Or.inr ⟨x, List.mem_cons_self x xs, h2⟩
    · exact Or.inr ⟨y, List.mem_cons_of_mem x hy, hky⟩

/-- Python `max`'s left fold agrees with the structural first-maximum. -/
theorem pickMax_eq_spec {α : Type} (f : α → Nat) (l : List α) (b : α) :
    pickMax f b l =
      match specFirstMax f l with
      | none => b
      | some m => if f m > f b then m else b := by
  induction l generalizing b with
  | nil => rfl
  | cons x xs ih =>
    have hstep : pickMax f b (x :: xs) = pickMax f (if f x > f b then x else b) xs := rfl
    rw [hstep, ih]
    rcases hs : specFirstMax f xs with _ | m
    · simp [specFirstMax, hs]
    · simp only [specFirstMax, hs]
      split_ifs <;> simp_all <;> omega

/-- `maxByFirst` computes the structural first-maximum. -/
theorem maxByFirst_eq_spec {α : Type} (f : α → Nat) (l : List α) :
    maxByFirst f l = specFirstMax f l := by
  cases l with
  | nil => rfl
  | cons x xs =>
    rw [maxByFirst, pickMax_eq_spec, specFirstMax]
    rcases hs : specFirstMax f xs with _ | m <;> simp

/-- The structural first-maximum is `none` exactly on the empty list. -/
theorem specFirstMax_eq_none {α : Type} (f : α → Nat) (l : List α) :
    specFirstMax f l = none ↔ l = [] := by
  cases l with
  | nil => simp [specFirstMax]
  | cons x xs =>
    simp only [specFirstMax]
    rcases specFirstMax f xs with _ | m <;> simp

/-- Characterization of the first maximum: the list splits around it, with
all earlier elements strictly smaller and all later ones no larger. -/
theorem specFirstMax_decomp {α : Type} (f : α → Nat) (l : List α) (m : α)
    (h : specFirstMax f l = some m) :
    ∃ l1 l2, l = l1 ++ m :: l2 ∧ (∀ y ∈ l1, f y < f m) ∧ (∀ y ∈ l2, f y ≤ f m) := by
  induction l generalizing m with
  | nil => simp [specFirstMax] at h
  | cons x xs ih =>
    rcases hs : specFirstMax f xs with _ | m'
    · have hx : xs = [] := (specFirstMax_eq_none f xs).mp hs
      subst hx
      simp [specFirstMax] at h
      exact ⟨[], [], by simp [h], by simp, by simp⟩
    · simp only [specFirstMax, hs, Option.some.injEq] at h
      obtain ⟨l1, l2, hsplit, h1, h2⟩ := ih m' hs
      by_cases hcmp : f m' > f x
      · rw [if_pos hcmp] at h
        subst h
        refine ⟨x :: l1, l2, by simp [hsplit], ?_, h2⟩
        intro y hy
        rcases List.mem_cons.mp hy with hy | hy
        · subst hy; exact hcmp
        · exact h1 y hy
      · rw [if_neg hcmp] at h
        subst h
        push_neg at hcmp
        refine ⟨[], xs, by simp, by simp, ?_⟩
        intro y hy
        rw [hsplit] at hy
        rcases List.mem_append.mp hy with hy | hy
        · exact le_of_lt (lt_of_lt_of_le (h1 y hy) hcmp)
        · rcases List.mem_cons.mp hy with hy | hy
          · subst hy; exact hcmp
          · exact le_trans (h2 y hy) hcmp

/-- Same characterization for `maxByFirst`. -/
theorem maxByFirst_decomp {α : Type} (f : α → Nat) (l : List α) (m : α)
    (h : maxByFirst f l = some m) :
    ∃ l1 l2, l = l1 ++ m :: l2 ∧ (∀ y ∈ l1, f y < f m) ∧ (∀ y ∈ l2, f y ≤ f m) := by
  rw [maxByFirst_eq_spec] at h
  exact specFirstMax_decomp f l m h

/-- The first maximum is an element of the list. -/
theorem maxByFirst_mem {α : Type} (f : α → Nat) (l : List α) (m : α)
    (h : maxByFirst f l = some m) : m ∈ l := by
  obtain ⟨l1, l2, hsplit, _, _⟩ := maxByFirst_decomp f l m h
  rw [hsplit]
  exact List.mem_append.mpr (Or.inr (List.mem_cons_self m l2))

/-- `find?` over a decomposed list whose prefix all fails the predicate. -/
theorem find?_append_cons {α : Type} (p : α → Bool) (pre post : List α) (n : α)
    (hpre : ∀ x ∈ pre, p x = false) (hn : p n = true) :
    List.find? p (pre ++ n :: post) = some n := by
  induction pre with
  | nil => simp [List.find?_cons, hn]
  | cons a rest ih =>
    have ha : p a = false := hpre a (List.mem_cons_self a rest)
    simp only [List.cons_append, List.find?_cons, ha]
    exact ih (fun x hx => hpre x (List.mem_cons_of_mem a hx))

/-- The head of a nonempty list is a member. -/
theorem headD_mem {α : Type} (l : List α) (d : α) (h : l ≠ []) : l.headD d ∈ l := by
  cases l with
  | nil => exact absurd rfl h
  | cons x xs => simp

/-- The resolved content column is always one of the columns. -/
theorem identifyContentColumn_mem (df : DataFrame) (h : df.cols ≠ []) :
    identifyContentColumn df ∈ df.cols := by
  rw [identifyContentColumn]
  rcases hf : contentColumnNames.find? (fun n => decide (n ∈ df.cols)) with _ | n
  · rcases hm : maxByFirst (colTotalLen df) (textLikeCols df) with _ | c
    · simpa using headD_mem df.cols "" h
    · have := maxByFirst_mem _ _ _ hm
      simp only [textLikeCols, List.mem_filter] at this
      simpa using this.1
  · have := List.find?_some hf
    simpa using this

/-- The result component of `ingest_file` does not depend on the incoming
accumulator: only `documents_ingested` feeds back, and no extractor reads it. -/
theorem ingestFile_fst_const (f : File) (s1 s2 : Stats) :
    (ingestFile f s1).1 = (ingestFile f s2).1 := by
  obtain ⟨name, c⟩ := f
  cases c with
  | txt r => cases r <;> rfl
  | csv r => cases r <;> rfl
  | json r =>
    cases r with
    | error e => rfl
    | ok data =>
      simp only [ingestFile, ingestJsonFile]
      by_cases hd : (jsonDocs name data).isEmpty <;> simp [hd]
  | pdf r => cases r <;> rfl
  | unsupported => rfl

/-- The accumulator after `ingest_file` differs from the one before only by
`documents_ingested += docCount(result)`. -/
theorem ingestFile_snd_eq (f : File) (s : Stats) :
    (ingestFile f s).2 =
      { s with documents_ingested :=
          s.documents_ingested + docCount (ingestFile f s).1 } := by
  obtain ⟨name, c⟩ := f
  cases c with
  | txt r => cases r <;> simp [ingestFile, ingestTextFile, docCount]
  | csv r => cases r <;> simp [ingestFile, ingestCsvFile, docCount]
  | json r =>
    cases r with
    | error e => simp [ingestFile, ingestJsonFile, docCount]
    | ok data =>
      simp only [ingestFile, ingestJsonFile]
      by_cases hd : (jsonDocs name data).isEmpty <;> simp [hd, docCount]
  | pdf r => cases r <;> simp [ingestFile, ingestPdfFile, docCount]
  | unsupported => simp [ingestFile, docCount]

/-- Closed form of the per-file loop of `ingest_directory` over existing
files: every file increments `files_processed`, `errors` never moves, and
`documents_ingested` grows by each file's document count. -/
theorem ingestDirectoryLoop_eq (files : List File) (s : Stats) :
    ingestDirectoryLoop files s =
      ⟨s.files_processed + files.length,
       s.documents_ingested + (files.map fileDocCount).sum,
       s.errors⟩ := by
  induction files generalizing s with
  | nil => simp [ingestDirectoryLoop]
  | cons f rest ih =>
    have hstep : ingestDirectoryLoop (f :: rest) s =
        ingestDirectoryLoop rest
          { (ingestFile f s).2 with
            files_processed := (ingestFile f s).2.files_processed + 1 } := rfl
    have hdoc : docCount (ingestFile f s).1 = fileDocCount f := by
      rw [fileDocCount, ingestFile_fst_const f s initStats]
    rw [hstep, ih, ingestFile_snd_eq, hdoc]
    simp only [List.length_cons, List.map_cons, List.sum_cons, Stats.mk.injEq,
      and_true, true_and]
    omega

/-- C9 (confirmed): ingestion is deterministic per file.  In the embedding
`ingest_file` is a pure function of the file snapshot, and its result
component is moreover independent of the accumulator it is given, so two
runs on the same unchanged file with fresh accumulators produce structurally
identical documents (equal content and metadata). -/
theorem C9_ingest_file_deterministic (f : File) (s1 s2 : Stats) :
    (ingestFile f s1).1 = (ingestFile f s2).1 ∧
    docsOf (ingestFile f s1).1 = docsOf (ingestFile f s2).1 :=
  ⟨ingestFile_fst_const f s1 s2, by rw [ingestFile_fst_const f s1 s2]⟩

/-- C10 (confirmed): frame property of the stats accumulator.  A standalone
`ingest_file` call (and the extractor it dispatches to) leaves
`files_processed` and `errors` untouched and changes only
`documents_ingested`, by exactly the number of documents of its result. -/
theorem C10_ingest_file_frame (f : File) (s : Stats) :
    (ingestFile f s).2.files_processed = s.files_processed ∧
    (ingestFile f s).2.errors = s.errors ∧
    (ingestFile f s).2.documents_ingested =
      s.documents_ingested + docCount (ingestFile f s).1 := by
  rw [ingestFile_snd_eq]
  exact ⟨rfl, rfl, rfl⟩

/-- C2 (amended): `ingest_directory` on a missing or non-directory path
raises `ValueError` inside its own `try`, so no file is processed — but the
method's blanket `except Exception` catches that very error and returns
`self.stats` unchanged, so no fatal error reaches the caller.
`ingest_file` on a nonexistent path raises `FileNotFoundError` before any
extractor is invoked. -/
theorem C2_existence_checks (s : Stats) :
    ingestDirectoryBody none s = Except.error "Directory does not exist" ∧
    ingestDirectory none s = s ∧
    ingestFileChecked none s = Except.error "File not found" :=
  ⟨rfl, rfl, rfl⟩

/-- C2 counterexample: called on a missing directory, `ingest_directory`
returns the stats dict unchanged — observationally identical to a successful
run over an empty directory — rather than yielding a fatal error for the
call. -/
theorem C2_counterexample :
    ingestDirectory none ⟨5, 6, 7⟩ = ⟨5, 6, 7⟩ ∧
    ingestDirectory none ⟨5, 6, 7⟩ = ingestDirectory (some []) ⟨5, 6, 7⟩ :=
  ⟨rfl, rfl⟩

/-- C1 (amended): best-effort batch accumulation as the code implements it.
Every enumerated (existing) file increments `files_processed` when
`ingest_file` returns — whether its `IngestionResult` is a success or a
failure, since extractor failures are returned, not raised — `errors` is
only incremented when `ingest_file` raises (impossible for enumerated,
existing files), and each file adds its number of produced documents to
`documents_ingested`.  The call never raises. -/
theorem C1_batch_accumulation (files : List File) (s : Stats) :
    (ingestDirectory (some files) s).files_processed =
      s.files_processed + files.length ∧
    (ingestDirectory (some files) s).errors = s.errors ∧
    (ingestDirectory (some files) s).documents_ingested =
      s.documents_ingested + (files.map fileDocCount).sum := by
  have hdir : ingestDirectory (some files) s = ingestDirectoryLoop files s := rfl
  rw [hdir, ingestDirectoryLoop_eq]
  exact ⟨rfl, rfl, rfl⟩

/-- C1 counterexample: on a directory holding one unsupported-format file and
one valid text file the code yields `errors = 0`, `files_processed = 2`,
`documents_ingested = 1` — not the claimed `errors = 1`,
`files_processed = 1` — because the unsupported file's failure is returned
as a result and therefore counted as processed, not as an error. -/
theorem C1_counterexample :
    (ingestDirectory (some dirC1) initStats).errors = 0 ∧
    (ingestDirectory (some dirC1) initStats).files_processed = 2 ∧
    (ingestDirectory (some dirC1) initStats).documents_ingested = 1 ∧
    ¬ ((ingestDirectory (some dirC1) initStats).errors = 1 ∧
       (ingestDirectory (some dirC1) initStats).files_processed = 1) := by
  decide

/-- The CSV metadata step preserves key distinctness. -/
theorem nodup_csvMetaStep (cols : List String) (row : List Cell) (tc : String)
    (m : PyDict) (col : String) (hm : (keys m).Nodup) :
    (keys (csvMetaStep cols row tc m col)).Nodup := by
  rw [csvMetaStep]
  split
  · exact nodup_keys_dinsert _ _ _ hm
  · exact hm

/-- The JSON metadata step preserves key distinctness. -/
theorem nodup_jsonMetaStep (cf : String) (m : PyDict) (kv : String × Json)
    (hm : (keys m).Nodup) : (keys (jsonMetaStep cf m kv)).Nodup := by
  by_cases hk : kv.1 ≠ cf
  · simp only [jsonMetaStep, if_pos hk]
    rcases hsm : scalarMeta kv.2 with _ | mv
    · simpa [hsm] using hm
    · simp only [hsm]
      exact nodup_keys_dinsert _ _ _ hm
  · simp only [jsonMetaStep, if_neg hk]
    exact hm

/-- The PDF document-info step preserves key distinctness. -/
theorem nodup_pdfMetaStep (m : PyDict) (kv : String × PdfMetaValue)
    (hm : (keys m).Nodup) : (keys (pdfMetaStep m kv)).Nodup := by
  rcases kv with ⟨k, v⟩
  cases v with
  | str sv =>
    simp only [pdfMetaStep]
    split
    · exact nodup_keys_dinsert _ _ _ hm
    · exact hm
  | other => exact hm

/-- The shared JSON metadata fold keeps keys distinct. -/
theorem nodup_jsonMetaFold (cf : String) (base : PyDict)
    (fields : List (String × Json)) (hb : (keys base).Nodup) :
    (keys (jsonMetaFold cf base fields)).Nodup :=
  nodup_keys_foldl (fun m kv => nodup_jsonMetaStep cf m kv) fields base hb

/-- Keys of a two-entry literal dict are distinct when the names differ. -/
theorem nodup_keys_literal2 (n1 n2 : String) (v1 v2 : MetaValue)
    (h12 : n1 ≠ n2) : (keys [(n1, v1), (n2, v2)]).Nodup := by
  simp [keys, h12]

/-- Keys of a three-entry literal dict are distinct when the names differ. -/
theorem nodup_keys_literal3 (n1 n2 n3 : String) (v1 v2 v3 : MetaValue)
    (h12 : n1 ≠ n2) (h13 : n1 ≠ n3) (h23 : n2 ≠ n3) :
    (keys [(n1, v1), (n2, v2), (n3, v3)]).Nodup := by
  simp [keys, h12, h13, h23]

/-- Documents of the JSON list branch have distinct metadata keys. -/
theorem jsonListItemDocs_nodup (src : String) (item : Json) (d : Document)
    (hd : d ∈ jsonListItemDocs src item) : (keys d.metadata).Nodup := by
  cases item with
  | obj fields =>
    rcases hcf : identifyJsonContentField fields with _ | cf
    · simp [jsonListItemDocs, hcf] at hd
    · by_cases hemp : cf = ""
      · simp [jsonListItemDocs, hcf, hemp] at hd
      · simp only [jsonListItemDocs, hcf, if_neg hemp, List.mem_singleton] at hd
        subst hd
        exact nodup_jsonMetaFold cf _ fields
          (nodup_keys_literal2 _ _ _ _ (by decide))
  | str s => simp [jsonListItemDocs] at hd
  | int n => simp [jsonListItemDocs] at hd
  | bool b => simp [jsonListItemDocs] at hd
  | null => simp [jsonListItemDocs] at hd
  | arr items => simp [jsonListItemDocs] at hd

/-- Documents of the JSON top-level-dict branch have distinct metadata keys. -/
theorem jsonDictDocs_nodup (src : String) (fields : List (String × Json))
    (d : Document) (hd : d ∈ jsonDictDocs src fields) :
    (keys d.metadata).Nodup := by
  rw [jsonDictDocs] at hd
  rcases List.mem_filterMap.mp hd with ⟨kv, _, hstep⟩
  rcases kv with ⟨k, v⟩
  cases v with
  | str s =>
    by_cases hlen : s.length > 100
    · simp only [if_pos hlen, Option.some.injEq] at hstep
      subst hstep
      exact nodup_keys_literal3 _ _ _ _ _ _ (by decide) (by decide) (by decide)
    · simp [if_neg hlen] at hstep
  | obj sub =>
    rcases hcf : identifyJsonContentField sub with _ | cf
    · simp [hcf] at hstep
    · by_cases hemp : cf = ""
      · simp [hcf, hemp] at hstep
      · simp only [hcf, if_neg hemp, Option.some.injEq] at hstep
        subst hstep
        exact nodup_jsonMetaFold cf _ sub
          (nodup_keys_literal3 _ _ _ _ _ _ (by decide) (by decide) (by decide))
  | int n => simp at hstep
  | bool b => simp at hstep
  | null => simp at hstep
  | arr items => simp at hstep

/-- Every document produced by any JSON payload has distinct metadata keys. -/
theorem jsonDocs_nodup (src : String) (data : Json) (d : Document)
    (hd : d ∈ jsonDocs src data) : (keys d.metadata).Nodup := by
  cases data with
  | arr items =>
    simp only [jsonDocs] at hd
    rcases List.mem_flatMap.mp hd with ⟨item, _, hmem⟩
    exact jsonListItemDocs_nodup src item d hmem
  | obj fields => exact jsonDictDocs_nodup src fields d hd
  | str s => simp [jsonDocs] at hd
  | int n => simp [jsonDocs] at hd
  | bool b => simp [jsonDocs] at hd
  | null => simp [jsonDocs] at hd

/-- The CSV metadata step leaves other keys alone. -/
theorem csvMetaStep_other (cols : List String) (row : List Cell) (tc col k : String)
    (hk : k ≠ col) (m : PyDict) :
    alookup k (csvMetaStep cols row tc m col) = alookup k m := by
  rw [csvMetaStep]
  split
  · exact alookup_dinsert_ne col k _ m hk
  · rfl

/-- The CSV metadata step skips the content column. -/
theorem csvMetaStep_tc (cols : List String) (row : List Cell) (tc : String)
    (m : PyDict) : csvMetaStep cols row tc m tc = m := by
  simp [csvMetaStep]

/-- The CSV metadata step skips null cells. -/
theorem csvMetaStep_null (cols : List String) (row : List Cell) (tc col : String)
    (hnn : isNullCell (getCell cols row col) = true) (m : PyDict) :
    csvMetaStep cols row tc m col = m := by
  simp [csvMetaStep, hnn]

/-- Looking up a non-content, non-null column after the CSV metadata fold
yields that row's coerced cell value (distinct column names). -/
theorem csv_fold_lookup (cols : List String) (row : List Cell) (tc : String)
    (base : PyDict) (k : String) (hk : k ∈ cols) (hnd : cols.Nodup)
    (hktc : k ≠ tc) (hnn : isNullCell (getCell cols row k) = false) :
    alookup k (cols.foldl (csvMetaStep cols row tc) base) =
      some (MetaValue.str (cellToStr (getCell cols row k))) := by
  obtain ⟨l1, l2, hsplit⟩ := List.append_of_mem hk
  subst hsplit
  have hnotl2 : k ∉ l2 :=
    (List.nodup_cons.mp (List.Nodup.of_append_right hnd)).1
  apply alookup_foldl_set l1 l2 k
  · intro m
    rw [csvMetaStep, if_pos ⟨hktc, hnn⟩]
    exact alookup_dinsert_self _ _ _
  · intro y hy m
    exact csvMetaStep_other _ _ _ _ _ (fun hh => hnotl2 (by rw [hh]; exact hy)) m

/-- A key that no step writes keeps its base binding across the CSV fold. -/
theorem csv_fold_lookup_congr (cols2 cols : List String) (row : List Cell)
    (tc : String) (base : PyDict) (k : String)
    (h : ∀ y ∈ cols2, ∀ m, alookup k (csvMetaStep cols row tc m y) = alookup k m) :
    alookup k (cols2.foldl (csvMetaStep cols row tc) base) = alookup k base :=
  alookup_foldl_congr cols2 h base

/-- Membership in a two-entry dict forces one of its keys. -/
theorem alookup_base2_isSome (k n1 n2 : String) (v1 v2 : MetaValue)
    (h : (alookup k [(n1, v1), (n2, v2)]).isSome = true) : k = n1 ∨ k = n2 := by
  by_cases h1 : n1 = k
  · exact Or.inl h1.symm
  · by_cases h2 : n2 = k
    · exact Or.inr h2.symm
    · simp [alookup, h1, h2] at h

/-- C3 (amended): metadata keys are never duplicated — every extractor builds
its metadata with Python dict assignment, which replaces an existing binding
in place — but on a collision between a source-derived key and a reserved key
the source-derived value overwrites the reserved value (last write wins)
rather than being dropped; e.g. a non-content CSV column named `source`
replaces the file name in `metadata["source"]`.  Only the resolved CSV
content column is excluded from the metadata loop. -/
theorem C3_metadata_key_discipline (f : File) (s : Stats) :
    (∀ d ∈ docsOf (ingestFile f s).1, (keys d.metadata).Nodup) ∧
    (∀ (name : String) (df : DataFrame) (i : Nat) (row : List Cell),
       df.cols.Nodup → "source" ∈ df.cols →
       identifyContentColumn df ≠ "source" →
       df.rows[i]? = some row →
       isNullCell (getCell df.cols row "source") = false →
       ∃ d : Document,
         (docsOf (ingestCsvFile name (Except.ok df) s).1)[i]? = some d ∧
         alookup "source" d.metadata =
           some (MetaValue.str (cellToStr (getCell df.cols row "source")))) := by
  constructor
  · intro d hd
    obtain ⟨name, c⟩ := f
    cases c with
    | txt r =>
      cases r with
      | error e => simp [ingestFile, ingestTextFile, docsOf] at hd
      | ok content =>
        simp only [ingestFile, ingestTextFile, docsOf, List.mem_singleton] at hd
        subst hd
        exact nodup_keys_literal2 _ _ _ _ (by decide)
    | csv r =>
      cases r with
      | error e => simp [ingestFile, ingestCsvFile, docsOf] at hd
      | ok df =>
        simp only [ingestFile, ingestCsvFile, docsOf, List.mem_map] at hd
        obtain ⟨row, _, hrow⟩ := hd
        subst hrow
        exact nodup_keys_foldl (fun m col hm => nodup_csvMetaStep _ _ _ m col hm)
          df.cols _ (nodup_keys_literal2 _ _ _ _ (by decide))
    | json r =>
      cases r with
      | error e => simp [ingestFile, ingestJsonFile, docsOf] at hd
      | ok data =>
        simp only [ingestFile, ingestJsonFile] at hd
        by_cases hemp : (jsonDocs name data).isEmpty
        · simp [hemp, docsOf] at hd
        · simp only [hemp, if_false, docsOf] at hd
          exact jsonDocs_nodup name data d hd
    | pdf r =>
      cases r with
      | error e => simp [ingestFile, ingestPdfFile, docsOf] at hd
      | ok pdf =>
        simp only [ingestFile, ingestPdfFile, docsOf, List.mem_singleton] at hd
        subst hd
        rcases hinfo : pdf.info with _ | entries
        · simp only [hinfo]
          exact nodup_keys_literal3 _ _ _ _ _ _ (by decide) (by decide) (by decide)
        · simp only [hinfo]
          by_cases he : entries.isEmpty
          · simp only [if_pos he]
            exact nodup_keys_literal3 _ _ _ _ _ _ (by decide) (by decide) (by decide)
          · simp only [if_neg he]
            exact nodup_keys_foldl (fun m kv hm => nodup_pdfMetaStep m kv hm)
              entries _
              (nodup_keys_literal3 _ _ _ _ _ _ (by decide) (by decide) (by decide))
    | unsupported => simp [ingestFile, docsOf] at hd
  · intro name df i row hnd hsrc htc hrow hnn
    refine ⟨csvRowDoc name df (identifyContentColumn df) row, ?_, ?_⟩
    · have hres : (docsOf (ingestCsvFile name (Except.ok df) s).1) =
          df.rows.map (csvRowDoc name df (identifyContentColumn df)) := rfl
      rw [hres, List.getElem?_map, hrow]
      rfl
    · have hmeta : (csvRowDoc name df (identifyContentColumn df) row).metadata =
          df.cols.foldl (csvMetaStep df.cols row (identifyContentColumn df))
            [("source", MetaValue.str name), ("file_type", MetaValue.str "csv")] := rfl
      rw [hmeta]
      exact csv_fold_lookup df.cols row _ _ "source" hsrc hnd
        (fun hh => htc hh.symm) hnn

/-- C3 counterexample: on a CSV whose non-content column is named `source`,
the reserved entry `source = file name` is overwritten by the row value, so
the reserved key does not take precedence as claimed. -/
theorem C3_counterexample :
    alookup "source"
        (firstDocMeta (ingestCsvFile "f.csv" (Except.ok dfC3) initStats).1) =
      some (MetaValue.str "row-src") ∧
    alookup "source"
        (firstDocMeta (ingestCsvFile "f.csv" (Except.ok dfC3) initStats).1) ≠
      some (MetaValue.str "f.csv") := by
  decide

/-- C3 witness: the amended overwrite behavior at the concrete CSV. -/
theorem C3_metadata_key_discipline_witness :
    ∃ d, (docsOf (ingestCsvFile "f.csv" (Except.ok dfC3) initStats).1)[0]? = some d ∧
      alookup "source" d.metadata = some (MetaValue.str "row-src") := by
  obtain ⟨d, hd, hl⟩ :=
    (C3_metadata_key_discipline ⟨"x", FileContent.unsupported⟩ initStats).2
      "f.csv" dfC3 0 [Cell.str "hello", Cell.str "row-src"]
      (by decide) (by decide) (by decide) rfl (by decide)
  exact ⟨d, hd, hl.trans (by decide)⟩

/-- C4 (amended): for every parsable CSV with N data rows whose column names
are distinct and do not collide with the reserved names `source` and
`file_type`, single-file ingestion succeeds with exactly N documents (N = 0
still a success); each document's content is the string form of the resolved
content column's value for its row; its metadata binds `source` and
`file_type`, binds every other non-null column to its coerced string value,
binds nothing else, and never contains the resolved content column as a key.
(Without the reserved-name restriction the last clause fails: a content
column named `source` does appear as a metadata key, see the
counterexample; and colliding columns overwrite the reserved values as in
the C3 amendment.) -/
theorem C4_csv_rows (name : String) (df : DataFrame) (s : Stats)
    (hnd : df.cols.Nodup) (hs : "source" ∉ df.cols) (hf : "file_type" ∉ df.cols)
    (hne : df.cols ≠ []) :
    (∃ ds : List Document,
       (ingestCsvFile name (Except.ok df) s).1 = IngestionResult.docs ds ∧
       ds.length = df.rows.length) ∧
    (∀ (i : Nat) (row : List Cell), df.rows[i]? = some row →
       ∃ d : Document,
         (docsOf (ingestCsvFile name (Except.ok df) s).1)[i]? = some d ∧
         d.content = cellToStr (getCell df.cols row (identifyContentColumn df)) ∧
         alookup "source" d.metadata = some (MetaValue.str name) ∧
         alookup "file_type" d.metadata = some (MetaValue.str "csv") ∧
         alookup (identifyContentColumn df) d.metadata = none ∧
         (∀ col ∈ df.cols, col ≠ identifyContentColumn df →
            alookup col d.metadata =
              (if isNullCell (getCell df.cols row col) = true then none
               else some (MetaValue.str (cellToStr (getCell df.cols row col))))) ∧
         (∀ k : String, (alookup k d.metadata).isSome = true →
            k = "source" ∨ k = "file_type" ∨ k ∈ df.cols)) := by
  have htc_mem : identifyContentColumn df ∈ df.cols := identifyContentColumn_mem df hne
  have htc_src : identifyContentColumn df ≠ "source" :=
    fun hh => hs (hh ▸ htc_mem)
  have htc_ft : identifyContentColumn df ≠ "file_type" :=
    fun hh => hf (hh ▸ htc_mem)
  constructor
  · exact ⟨df.rows.map (csvRowDoc name df (identifyContentColumn df)), rfl,
      List.length_map df.rows _⟩
  · intro i row hrow
    refine ⟨csvRowDoc name df (identifyContentColumn df) row, ?_, rfl, ?_, ?_, ?_, ?_, ?_⟩
    · have hres : (docsOf (ingestCsvFile name (Except.ok df) s).1) =
          df.rows.map (csvRowDoc name df (identifyContentColumn df)) := rfl
      rw [hres, List.getElem?_map, hrow]
      rfl
    · show alookup "source"
        (df.cols.foldl (csvMetaStep df.cols row (identifyContentColumn df))
          [("source", MetaValue.str name), ("file_type", MetaValue.str "csv")]) = _
      rw [csv_fold_lookup_congr df.cols df.cols row _ _ "source"
        (fun y hy m => csvMetaStep_other _ _ _ _ _
          (fun hh => hs (by rw [hh]; exact hy)) m)]
      simp [alookup]
    · show alookup "file_type"
        (df.cols.foldl (csvMetaStep df.cols row (identifyContentColumn df))
          [("source", MetaValue.str name), ("file_type", MetaValue.str "csv")]) = _
      rw [csv_fold_lookup_congr df.cols df.cols row _ _ "file_type"
        (fun y hy m => csvMetaStep_other _ _ _ _ _
          (fun hh => hf (by rw [hh]; exact hy)) m)]
      simp [alookup]
    · show alookup (identifyContentColumn df)
        (df.cols.foldl (csvMetaStep df.cols row (identifyContentColumn df))
          [("source", MetaValue.str name), ("file_type", MetaValue.str "csv")]) = _
      rw [csv_fold_lookup_congr df.cols df.cols row _ _ (identifyContentColumn df)
        (fun y hy m => by
          by_cases hyt : y = identifyContentColumn df
          · subst hyt
            rw [csvMetaStep_tc]
          · exact csvMetaStep_other _ _ _ _ _ (fun hh => hyt hh.symm) m)]
      have h1 : ¬ "source" = identifyContentColumn df := fun hh => htc_src hh.symm
      have h2 : ¬ "file_type" = identifyContentColumn df := fun hh => htc_ft hh.symm
      simp [alookup, h1, h2]
    · intro col hcol hcoltc
      by_cases hnull : isNullCell (getCell df.cols row col) = true
      · rw [if_pos hnull]
        show alookup col
          (df.cols.foldl (csvMetaStep df.cols row (identifyContentColumn df))
            [("source", MetaValue.str name), ("file_type", MetaValue.str "csv")]) = _
        rw [csv_fold_lookup_congr df.cols df.cols row _ _ col
          (fun y hy m => by
            by_cases hyc : y = col
            · subst hyc
              exact congrArg (alookup y) (csvMetaStep_null _ _ _ _ hnull m)
            · exact csvMetaStep_other _ _ _ _ _ (fun hh => hyc hh.symm) m)]
        have h1 : ¬ "source" = col := fun hh => hs (hh ▸ hcol)
        have h2 : ¬ "file_type" = col := fun hh => hf (hh ▸ hcol)
        simp [alookup, h1, h2]
      · have hnn : isNullCell (getCell df.cols row col) = false := by
          revert hnull
          cases isNullCell (getCell df.cols row col) <;> simp
        rw [if_neg hnull]
        exact csv_fold_lookup df.cols row _ _ col hcol hnd hcoltc hnn
    · intro k hk
      have hstep : ∀ (m : PyDict) (x : String),
          (alookup k (csvMetaStep df.cols row (identifyContentColumn df) m x)).isSome = true →
          (alookup k m).isSome = true ∨ k = x := by
        intro m x hsome
        by_cases hkx : k = x
        · exact Or.inr hkx
        · left
          rwa [csvMetaStep_other _ _ _ _ _ hkx m] at hsome
      rcases alookup_foldl_isSome (fun col => col) hstep df.cols _ hk with hb | ⟨x, hx, hkx⟩
      · rcases alookup_base2_isSome k "source" "file_type" _ _ hb with h | h
        · exact Or.inl h
        · exact Or.inr (Or.inl h)
      · exact Or.inr (Or.inr (hkx ▸ hx))

/-- C4 counterexample: on a CSV whose single column is named `source`, the
length heuristic resolves `source` itself as the content column, and the
resulting document's metadata does contain the resolved content column as a
key (the reserved `source` entry), contradicting the unrestricted claim. -/
theorem C4_counterexample :
    identifyContentColumn dfC4x = "source" ∧
    (alookup "source"
        (firstDocMeta (ingestCsvFile "f.csv" (Except.ok dfC4x) initStats).1)).isSome
      = true := by
  decide

/-- C4 witness: the amended theorem at a concrete two-column CSV. -/
theorem C4_csv_rows_witness :
    ∃ d : Document,
      (docsOf (ingestCsvFile "t.csv" (Except.ok dfC4w) initStats).1)[0]? = some d ∧
      d.content = "hello" ∧
      alookup "source" d.metadata = some (MetaValue.str "t.csv") ∧
      alookup "file_type" d.metadata = some (MetaValue.str "csv") ∧
      alookup "note" d.metadata = none ∧
      alookup "id" d.metadata = some (MetaValue.str "1") := by
  have htc : identifyContentColumn dfC4w = "note" := by decide
  obtain ⟨d, hd, hc, hsrc, hft, htcnone, hcols, _⟩ :=
    (C4_csv_rows "t.csv" dfC4w initStats (by decide) (by decide) (by decide)
      (by decide)).2 0 [Cell.num 1, Cell.str "hello"] rfl
  refine ⟨d, hd, hc.trans (by decide), hsrc, hft, ?_, ?_⟩
  · rw [htc] at htcnone
    exact htcnone
  · have := hcols "id" (by decide) (by rw [htc]; decide)
    rw [this]
    decide

/-- C6 (confirmed): the field-variant content locator returns the first name
of the fixed priority list whose value in the object is a string; otherwise,
among the string-valued fields longer than 50 characters, the one of
greatest length with ties broken by encounter order; otherwise it reports no
content field, in which case the list-branch caller skips the object
silently — no document and no error — as on `{"id": 1, "note": "short"}`. -/
theorem C6_field_variant_locator (item : List (String × Json)) :
    (∀ pre n post, contentFieldNames = pre ++ n :: post →
       isStrField item n = true → (∀ p ∈ pre, isStrField item p = false) →
       identifyJsonContentField item = some n) ∧
    ((∀ n ∈ contentFieldNames, isStrField item n = false) →
       (∀ m : String, identifyJsonContentField item = some m →
          ∃ l1 len l2, textFields50 item = l1 ++ (m, len) :: l2 ∧
            (∀ q ∈ l1, q.2 < len) ∧ (∀ q ∈ l2, q.2 ≤ len)) ∧
       (textFields50 item = [] → identifyJsonContentField item = none)) ∧
    (identifyJsonContentField item = none →
       ∀ src : String, jsonListItemDocs src (Json.obj item) = []) := by
  refine ⟨?_, ?_, ?_⟩
  · intro pre n post hdecomp hn hpre
    rw [identifyJsonContentField, hdecomp,
      find?_append_cons _ pre post n hpre hn]
  · intro hall
    have hfind : contentFieldNames.find? (fun n => isStrField item n) = none :=
      List.find?_eq_none.mpr (fun x hx => by simp [hall x hx])
    constructor
    · intro m hm
      rw [identifyJsonContentField, hfind] at hm
      rcases hq : maxByFirst (fun q => q.2) (textFields50 item) with _ | q
      · rw [hq] at hm
        simp at hm
      · rw [hq] at hm
        simp only [Option.map_some', Option.some.injEq] at hm
        obtain ⟨l1, l2, hsplit, h1, h2⟩ := maxByFirst_decomp _ _ _ hq
        refine ⟨l1, q.2, l2, ?_, h1, h2⟩
        rw [← hm]
        exact hsplit
    · intro hempty
      rw [identifyJsonContentField, hfind, hempty]
      rfl
  · intro hnone src
    simp [jsonListItemDocs, hnone]

/-- C6 witness: the locator applied to the spec's example object. -/
theorem C6_field_variant_locator_witness :
    identifyJsonContentField itemC6 = none ∧
    jsonListItemDocs "records.json" (Json.obj itemC6) = [] := by
  have h := C6_field_variant_locator itemC6
  have hnone : identifyJsonContentField itemC6 = none :=
    (h.2.1 (by decide)).2 (by decide)
  exact ⟨hnone, h.2.2 hnone "records.json"⟩

/-- C7 (confirmed): the column-variant content locator returns the first name
of the fixed priority list that is literally one of the columns, regardless
of column order; failing that, the object-dtype ("text-like") column of
greatest average string length with ties broken by encounter order; and if no
text-like column exists, the first column in schema order.  (With the common
row count shared by all columns, comparing total string lengths is the same
ordering as the source's comparison of mean string lengths.) -/
theorem C7_column_variant_locator (df : DataFrame) :
    (∀ pre n post, contentColumnNames = pre ++ n :: post →
       n ∈ df.cols → (∀ p ∈ pre, p ∉ df.cols) →
       identifyContentColumn df = n) ∧
    ((∀ n ∈ contentColumnNames, n ∉ df.cols) → textLikeCols df ≠ [] →
       ∃ l1 l2, textLikeCols df = l1 ++ identifyContentColumn df :: l2 ∧
         (∀ c ∈ l1, colTotalLen df c < colTotalLen df (identifyContentColumn df)) ∧
         (∀ c ∈ l2, colTotalLen df c ≤ colTotalLen df (identifyContentColumn df))) ∧
    ((∀ n ∈ contentColumnNames, n ∉ df.cols) → textLikeCols df = [] →
       ∀ c rest, df.cols = c :: rest → identifyContentColumn df = c) := by
  refine ⟨?_, ?_, ?_⟩
  · intro pre n post hdecomp hn hpre
    have hfind : contentColumnNames.find? (fun x => decide (x ∈ df.cols)) = some n := by
      rw [hdecomp]
      exact find?_append_cons _ pre post n (fun x hx => by simp [hpre x hx])
        (by simp [hn])
    rw [identifyContentColumn, hfind]
  · intro hall hne
    have hfind : contentColumnNames.find? (fun x => decide (x ∈ df.cols)) = none :=
      List.find?_eq_none.mpr (fun x hx => by simp [hall x hx])
    rcases hq : maxByFirst (colTotalLen df) (textLikeCols df) with _ | c
    · rw [maxByFirst_eq_spec] at hq
      exact absurd ((specFirstMax_eq_none _ _).mp hq) hne
    · have hid : identifyContentColumn df = c := by
        rw [identifyContentColumn, hfind, hq]
      obtain ⟨l1, l2, hsplit, h1, h2⟩ := maxByFirst_decomp _ _ _ hq
      rw [hid]
      exact ⟨l1, l2, hsplit, h1, h2⟩
  · intro hall hempty c rest hcols
    have hfind : contentColumnNames.find? (fun x => decide (x ∈ df.cols)) = none :=
      List.find?_eq_none.mpr (fun x hx => by simp [hall x hx])
    rw [identifyContentColumn, hfind, hempty]
    simp [maxByFirst, hcols]

/-- C7 witness: on columns `["id", "title", "description"]` the priority name
`description` is selected, regardless of order or lengths. -/
theorem C7_column_variant_locator_witness :
    identifyContentColumn dfC7w = "description" :=
  (C7_column_variant_locator dfC7w).1 ["content", "text"] "description"
    ["abstract", "body"] rfl (by decide) (by decide)

/-- The JSON metadata step leaves other keys alone. -/
theorem jsonMetaStep_other (cf k : String) (kv : String × Json) (hk : k ≠ kv.1)
    (m : PyDict) : alookup k (jsonMetaStep cf m kv) = alookup k m := by
  by_cases hc : kv.1 ≠ cf
  · rcases hsm : scalarMeta kv.2 with _ | mv
    · simp [jsonMetaStep, if_pos hc, hsm]
    · simp only [jsonMetaStep, if_pos hc, hsm]
      exact alookup_dinsert_ne kv.1 k mv m hk
  · simp [jsonMetaStep, if_neg hc]

/-- Looking up a non-content scalar field after the JSON metadata fold yields
its value (distinct field names). -/
theorem json_fold_lookup (fields : List (String × Json)) (cf : String)
    (base : PyDict) (k : String) (v : Json) (mv : MetaValue)
    (hmem : (k, v) ∈ fields) (hnd : (fields.map Prod.fst).Nodup)
    (hkcf : k ≠ cf) (hsm : scalarMeta v = some mv) :
    alookup k (jsonMetaFold cf base fields) = some mv := by
  obtain ⟨l1, l2, hsplit⟩ := List.append_of_mem hmem
  subst hsplit
  have hnotl2 : k ∉ l2.map Prod.fst := by
    rw [List.map_append, List.map_cons] at hnd
    exact (List.nodup_cons.mp (List.Nodup.of_append_right hnd)).1
  rw [jsonMetaFold]
  apply alookup_foldl_set l1 l2 (k, v)
  · intro m
    have hpos : ((k, v) : String × Json).1 ≠ cf := hkcf
    simp only [jsonMetaStep, if_pos hpos, hsm]
    exact alookup_dinsert_self _ _ _
  · intro y hy m
    exact jsonMetaStep_other cf k y
      (fun hh => hnotl2 (by rw [hh]; exact List.mem_map_of_mem Prod.fst hy)) m

/-- A key that is no field name keeps its base binding across the JSON
metadata fold. -/
theorem json_fold_lookup_congr (fields : List (String × Json)) (cf : String)
    (base : PyDict) (k : String) (h : ∀ kv ∈ fields, k ≠ kv.1) :
    alookup k (jsonMetaFold cf base fields) = alookup k base := by
  rw [jsonMetaFold]
  exact alookup_foldl_congr fields
    (fun kv hkv m => jsonMetaStep_other cf k kv (h kv hkv) m) base

/-- C5 (amended): for a JSON file whose top-level payload is a single
mapping, every top-level key bound to a string longer than 100 characters
yields one key-tagged document; every top-level key bound to an object whose
resolved content field is a non-empty name yields one nested-record document
with `document_id = key` (the guard `if content_field:` is Python truthiness,
so a resolved content field named by the empty string is treated as absent
and the object is skipped — see the counterexample; and colliding nested
fields would overwrite the reserved keys, so the characterization below
assumes no such collision); and the call fails with the
"no valid documents" error exactly when no documents were derived. -/
theorem C5_json_single_mapping (src : String) (fields : List (String × Json))
    (s : Stats) :
    (∀ (k blob : String), (k, Json.str blob) ∈ fields → blob.length > 100 →
       (⟨blob, [("source", MetaValue.str src), ("file_type", MetaValue.str "json"),
                ("key", MetaValue.str k)]⟩ : Document) ∈ jsonDictDocs src fields) ∧
    (∀ (k : String) (sub : List (String × Json)) (cf : String),
       (k, Json.obj sub) ∈ fields →
       identifyJsonContentField sub = some cf → cf ≠ "" →
       (sub.map Prod.fst).Nodup →
       (∀ kv ∈ sub, kv.1 ≠ "source" ∧ kv.1 ≠ "file_type" ∧ kv.1 ≠ "document_id") →
       ∃ d : Document, d ∈ jsonDictDocs src fields ∧
         d.content = jsonStrD (alookupJ cf sub) ∧
         alookup "source" d.metadata = some (MetaValue.str src) ∧
         alookup "file_type" d.metadata = some (MetaValue.str "json") ∧
         alookup "document_id" d.metadata = some (MetaValue.str k) ∧
         (∀ (k2 : String) (v2 : Json) (mv : MetaValue),
            (k2, v2) ∈ sub → k2 ≠ cf → scalarMeta v2 = some mv →
            alookup k2 d.metadata = some mv)) ∧
    ((ingestJsonFile src (Except.ok (Json.obj fields)) s).1 =
        IngestionResult.err "No valid documents found" ↔
      jsonDictDocs src fields = []) := by
  refine ⟨?_, ?_, ?_⟩
  · intro k blob hmem hlen
    apply List.mem_filterMap.mpr
    refine ⟨(k, Json.str blob), hmem, ?_⟩
    simp [hlen]
  · intro k sub cf hmem hcf hne hnd hres
    refine ⟨⟨jsonStrD (alookupJ cf sub),
             jsonMetaFold cf
               [("source", MetaValue.str src), ("file_type", MetaValue.str "json"),
                ("document_id", MetaValue.str k)] sub⟩, ?_, rfl, ?_, ?_, ?_, ?_⟩
    · apply List.mem_filterMap.mpr
      refine ⟨(k, Json.obj sub), hmem, ?_⟩
      simp [hcf, hne]
    · rw [json_fold_lookup_congr sub cf _ "source"
        (fun kv hkv => Ne.symm (hres kv hkv).1)]
      simp [alookup]
    · rw [json_fold_lookup_congr sub cf _ "file_type"
        (fun kv hkv => Ne.symm (hres kv hkv).2.1)]
      simp [alookup]
    · rw [json_fold_lookup_congr sub cf _ "document_id"
        (fun kv hkv => Ne.symm (hres kv hkv).2.2)]
      simp [alookup]
    · intro k2 v2 mv hmem2 hk2cf hsm
      exact json_fold_lookup sub cf _ k2 v2 mv hmem2 hnd hk2cf hsm
  · constructor
    · intro h
      by_cases hemp : (jsonDocs src (Json.obj fields)).isEmpty
      · have : jsonDocs src (Json.obj fields) = [] := by
          simpa using hemp
        exact this
      · simp [ingestJsonFile, hemp] at h
    · intro h
      have hemp : (jsonDocs src (Json.obj fields)).isEmpty = true := by
        show (jsonDictDocs src fields).isEmpty = true
        rw [h]
        rfl
      simp [ingestJsonFile, hemp]

/-- C5 counterexample: a nested object whose only long string field is named
by the empty string.  The field-variant locator does resolve a content field
(the empty-string key), yet the truthiness guard `if content_field:` rejects
it, no nested-record document is produced for the object-valued top-level
key, and the whole file fails — contrary to the claim that every
object-valued key is treated as a nested record once the locator resolves
its content field. -/
theorem C5_counterexample :
    identifyJsonContentField [("", Json.str longS60)] = some "" ∧
    (ingestJsonFile "f.json" (Except.ok (Json.obj fieldsC5x)) initStats).1 =
      IngestionResult.err "No valid documents found" := by
  constructor
  · decide
  · decide

/-- C5 witness: the spec's single-mapping example yields both the key-tagged
document from `intro` and the nested-record document from `meta`. -/
theorem C5_json_single_mapping_witness :
    ((⟨longS120,
       [("source", MetaValue.str "rec.json"), ("file_type", MetaValue.str "json"),
        ("key", MetaValue.str "intro")]⟩ : Document) ∈
      jsonDictDocs "rec.json" fieldsC5w) ∧
    ∃ d : Document, d ∈ jsonDictDocs "rec.json" fieldsC5w ∧
      d.content = "hello world" ∧
      alookup "document_id" d.metadata = some (MetaValue.str "meta") ∧
      alookup "tag" d.metadata = some (MetaValue.str "x") := by
  have h := C5_json_single_mapping "rec.json" fieldsC5w initStats
  constructor
  · exact h.1 "intro" longS120 (List.Mem.head _) (by decide)
  · obtain ⟨d, hdmem, hc, _, _, hdid, hfields⟩ :=
      h.2.1 "meta" [("content", Json.str "hello world"), ("tag", Json.str "x")]
        "content" (List.Mem.tail _ (List.Mem.head _))
        (by decide) (by decide) (by decide) (by decide)
    refine ⟨d, hdmem, hc.trans (by decide), hdid, ?_⟩
    exact hfields "tag" (Json.str "x") (MetaValue.str "x")
      (List.Mem.tail _ (List.Mem.head _)) (by decide) rfl

/-- The page-accumulation loop equals the concatenation of the marker-tagged
chunks of the non-empty pages, in page order. -/
theorem pdfContentAux_eq_join (pages : List String) (n : Nat) :
    pdfContentAux n pages =
      concatAll (((pages.enumFrom n).filter (fun q => q.2 ≠ "")).map
        (fun q => pageChunk q.1 q.2)) := by
  induction pages generalizing n with
  | nil => rfl
  | cons p rest ih =>
    by_cases hp : p = ""
    · simp [pdfContentAux, hp, List.enumFrom, ih (n + 1), concatAll]
    · simp [pdfContentAux, hp, List.enumFrom, ih (n + 1), concatAll]

/-- The combined PDF content in terms of the one-based page chunks. -/
theorem pdfContent_eq_chunks (pages : List String) :
    pdfContentAux 0 pages = concatAll (pageChunksSpec pages) := by
  rw [pageChunksSpec, show pages.enum = pages.enumFrom 0 from rfl]
  exact pdfContentAux_eq_join pages 0

/-- A document all of whose pages have no extractable text yields empty
combined content. -/
theorem pdfContentAux_all_empty (pages : List String) (n : Nat)
    (h : ∀ p ∈ pages, p = "") : pdfContentAux n pages = "" := by
  induction pages generalizing n with
  | nil => rfl
  | cons p rest ih =>
    have hp : p = "" := h p (List.mem_cons_self p rest)
    have hr : pdfContentAux (n + 1) rest = "" :=
      ih (n + 1) (fun q hq => h q (List.mem_cons_of_mem p hq))
    simp [pdfContentAux, hp, hr]

/-- When no document-info entry writes the key `num_pages`, the info fold
leaves its binding unchanged. -/
theorem pdf_fold_numpages (entries : List (String × PdfMetaValue)) (base : PyDict)
    (h : ∀ kv ∈ entries, pdfCopyKey kv ≠ some "num_pages") :
    alookup "num_pages" (entries.foldl pdfMetaStep base) =
      alookup "num_pages" base := by
  apply alookup_foldl_congr
  intro kv hkv m
  rcases kv with ⟨k, v⟩
  cases v with
  | str sv =>
    by_cases hc : k ≠ "" ∧ sv ≠ ""
    · have hkey : lowerStr (cleanKey k) ≠ "num_pages" := by
        have hh := h (k, PdfMetaValue.str sv) hkv
        simpa [pdfCopyKey, hc] using hh
      simp only [pdfMetaStep, if_pos hc]
      exact alookup_dinsert_ne _ _ _ m (Ne.symm hkey)
    · simp [pdfMetaStep, if_neg hc]
  | other => rfl

/-- C8 (amended): every readable PDF yields exactly one document whose
content is the concatenation, in page order, of each non-empty page's text
preceded by its `--- Page N ---` marker (pages numbered from 1, empty pages
contributing nothing), and an all-empty document is a success with empty
content.  Its metadata binds `num_pages` to the total page count provided no
string-valued document-info property has the cleaned lower-cased key
`num_pages`; such a property overwrites the reserved binding (see the
counterexample). -/
theorem C8_pdf_extraction (name : String) (pdf : PdfDoc) (s : Stats)
    (hmeta : ∀ kv ∈ pdfEntries pdf, pdfCopyKey kv ≠ some "num_pages") :
    ∃ d : Document,
      (ingestPdfFile name (Except.ok pdf) s).1 = IngestionResult.doc d ∧
      d.content = concatAll (pageChunksSpec pdf.pages) ∧
      alookup "num_pages" d.metadata =
        some (MetaValue.int (pdf.pages.length : Int)) ∧
      ((∀ p ∈ pdf.pages, p = "") → d.content = "") := by
  rcases hinfo : pdf.info with _ | entries
  · refine ⟨⟨pdfContentAux 0 pdf.pages,
       [("source", MetaValue.str name), ("file_type", MetaValue.str "pdf"),
        ("num_pages", MetaValue.int (pdf.pages.length : Int))]⟩, ?_, ?_, ?_, ?_⟩
    · simp [ingestPdfFile, hinfo]
    · exact pdfContent_eq_chunks pdf.pages
    · simp [alookup]
    · exact fun hall => pdfContentAux_all_empty pdf.pages 0 hall
  · by_cases hemp : entries.isEmpty
    · refine ⟨⟨pdfContentAux 0 pdf.pages,
         [("source", MetaValue.str name), ("file_type", MetaValue.str "pdf"),
          ("num_pages", MetaValue.int (pdf.pages.length : Int))]⟩, ?_, ?_, ?_, ?_⟩
      · simp [ingestPdfFile, hinfo, hemp]
      · exact pdfContent_eq_chunks pdf.pages
      · simp [alookup]
      · exact fun hall => pdfContentAux_all_empty pdf.pages 0 hall
    · refine ⟨⟨pdfContentAux 0 pdf.pages,
         entries.foldl pdfMetaStep
           [("source", MetaValue.str name), ("file_type", MetaValue.str "pdf"),
            ("num_pages", MetaValue.int (pdf.pages.length : Int))]⟩, ?_, ?_, ?_, ?_⟩
      · simp [ingestPdfFile, hinfo, hemp]
      · exact pdfContent_eq_chunks pdf.pages
      · rw [pdf_fold_numpages entries _
          (by simpa [pdfEntries, hinfo] using hmeta)]
        simp [alookup]
      · exact fun hall => pdfContentAux_all_empty pdf.pages 0 hall

/-- C8 counterexample: a readable PDF whose document info carries the string
property `/num_pages`.  The info loop overwrites the reserved `num_pages`
entry with the string value, so the metadata does not bind `num_pages` to
the page count. -/
theorem C8_counterexample :
    alookup "num_pages"
        (firstDocMeta (ingestPdfFile "doc.pdf" (Except.ok pdfC8x) initStats).1) =
      some (MetaValue.str "oops") ∧
    alookup "num_pages"
        (firstDocMeta (ingestPdfFile "doc.pdf" (Except.ok pdfC8x) initStats).1) ≠
      some (MetaValue.int 3) := by
  decide

/-- C8 witness: the spec's 3-page example with an empty middle page — both
markers appear in page order and `num_pages` is 3. -/
theorem C8_pdf_extraction_witness :
    ∃ d : Document,
      (ingestPdfFile "w.pdf" (Except.ok pdfC8w) initStats).1 =
        IngestionResult.doc d ∧
      d.content = "--- Page 1 ---\np1\n\n--- Page 3 ---\np3\n\n" ∧
      alookup "num_pages" d.metadata = some (MetaValue.int 3) := by
  obtain ⟨d, hd, hc, hn, _⟩ :=
    C8_pdf_extraction "w.pdf" pdfC8w initStats
      (fun kv hkv => absurd hkv (List.not_mem_nil kv))
  exact ⟨d, hd, hc.trans (by decide), hn⟩
